import Mathlib

/-!
# Verification of the dn42-sshd-autopeer core against its specification

Shallow embedding of the peering-record store (`src/database_manager.py`),
the interactive shell (`src/shell_dn42.py`) and the per-connection session
lifecycle (`src/ssh_server_shell.py`), together with proofs of the spec's
claims about them.

Conventions of the embedding:
* The SQLite table `peering_links` is a `List PeeringRecord`; the SQL `NOT NULL`
  text columns are total `String` fields (a Lean `String` can never be NULL),
  the nullable `user_link_local` column is an `Option String`.
* SQLite integer affinity converts the digit strings the shell passes for
  `as_num` and `wg_endpoint_port` into integers; the store layer therefore
  works on `ℕ`.
* An `IntegrityError` (violated CHECK / UNIQUE / PRIMARY KEY constraint)
  makes `peer_create` roll back and return `false` with the table unchanged,
  exactly as in the Python code.
-/

/-- One row of the `peering_links` table (`database_manager.py`, lines 36-45). -/
structure PeeringRecord where
  id : ℕ
  as_num : ℕ
  wg_pub_key : String
  wg_endpoint_addr : String
  wg_endpoint_port : ℕ
  user_link_local : Option String
deriving Repr, DecidableEq

/-- The `id` column of the table. -/
def idsOf (db : List PeeringRecord) : List ℕ := db.map (·.id)

/-- The `as_num` column of the table. -/
def asnsOf (db : List PeeringRecord) : List ℕ := db.map (·.as_num)

/-- The `unused_id` CTE of `DatabaseManager.peer_create` (lines 136-166):
`q1` contributes `1` when no row has `id = 1`; `q2` contributes `t.id + 1`
for the smallest `t.id` such that no row has `id = t.id + 1`; the outer
`ORDER BY id LIMIT 1` takes the minimum of the union. -/
def unusedId (db : List PeeringRecord) : Option ℕ :=
  let ids := idsOf db
  let q1 : List ℕ := if 1 ∈ ids then [] else [1]
  let q2 : Option ℕ := ((ids.filter (fun i => ¬ (i + 1) ∈ ids)).min?).map (fun i => i + 1)
  (q1 ++ q2.toList).min?

/-- `DatabaseManager.peer_create` (lines 116-184): one atomic SQL statement
computes the gap-scan candidate and inserts the row; any constraint violation
(`id` CHECK `BETWEEN 1 AND 65535`, `id` PRIMARY KEY, `as_num` UNIQUE,
`wg_endpoint_port` CHECK `BETWEEN 1 AND 65535`) raises `IntegrityError`,
which rolls the transaction back and returns `False` leaving the table
unchanged.  A `none` candidate cannot occur on a well-formed table (shown
in `unusedId_eq_of_least_free`); it is mapped to the failure outcome. -/
def peer_create (db : List PeeringRecord) (as_num : ℕ) (wg_pub_key wg_endpoint_addr : String)
    (wg_endpoint_port : ℕ) (user_link_local : Option String) : Bool × List PeeringRecord :=
  match unusedId db with
  | none => (false, db)
  | some i =>
    if 1 ≤ i ∧ i ≤ 65535 ∧ ¬ i ∈ idsOf db ∧ ¬ as_num ∈ asnsOf db
        ∧ 1 ≤ wg_endpoint_port ∧ wg_endpoint_port ≤ 65535 then
      (true, db ++ [⟨i, as_num, wg_pub_key, wg_endpoint_addr, wg_endpoint_port, user_link_local⟩])
    else
      (false, db)

/-- `DatabaseManager.peer_remove` (lines 186-203): `DELETE FROM peering_links
WHERE as_num = ?` deletes every matching row (zero rows matching is not an
error in SQLite) and the method returns `True`. -/
def peer_remove (db : List PeeringRecord) (as_num : ℕ) : Bool × List PeeringRecord :=
  (true, db.filter (fun r => ¬ r.as_num = as_num))

/-! ## The gap-scan candidate is the least free positive id -/

/-- On a table whose ids are all positive, the `unused_id` gap scan yields
exactly the least positive integer not currently used as an id. -/
theorem unusedId_eq_of_least_free (db : List PeeringRecord)
    (hpos : ∀ i ∈ idsOf db, 1 ≤ i) (m : ℕ) (hm1 : 1 ≤ m) (hmfree : ¬ m ∈ idsOf db)
    (hleast : ∀ k, 1 ≤ k → ¬ k ∈ idsOf db → m ≤ k) :
    unusedId db = some m := by
  unfold unusedId
  by_cases h1 : 1 ∈ idsOf db
  · -- `q1` is empty; `q2` picks the least `i ∈ ids` with `i+1` free, which is `m-1`.
    have hm2 : 2 ≤ m := by
      rcases Nat.lt_or_ge m 2 with h | h
      · interval_cases m
        · exact absurd h1 hmfree
      · exact h
    have hmem : m - 1 ∈ idsOf db := by
      by_contra hc
      have := hleast (m - 1) (by omega) hc
      omega
    have hsucc : m - 1 + 1 = m := by omega
    have hfilter : m - 1 ∈ (idsOf db).filter (fun i => ¬ (i + 1) ∈ idsOf db) := by
      refine List.mem_filter.mpr ⟨hmem, ?_⟩
      simp [hsucc, hmfree]
    have hmin : ((idsOf db).filter (fun i => ¬ (i + 1) ∈ idsOf db)).min? = some (m - 1) := by
      rw [List.min?_eq_some_iff']
      refine ⟨hfilter, ?_⟩
      intro b hb
      have hb' := List.mem_filter.mp hb
      have hbid : b ∈ idsOf db := hb'.1
      have hbfree : ¬ (b + 1) ∈ idsOf db := by simpa using hb'.2
      have := hleast (b + 1) (by omega) hbfree
      omega
    simp only [h1, if_pos, hmin]
    simp [hsucc]
  · -- `q1 = [1]`, every `q2` element is at least 2, and minimality forces `m = 1`.
    have hm : m = 1 := by
      have := hleast 1 le_rfl h1
      omega
    subst hm
    simp only [if_neg h1]
    rw [List.min?_eq_some_iff']
    constructor
    · simp
    · intro b hb
      rcases List.mem_append.mp hb with hb | hb
      · have : b = 1 := by simpa using hb
        omega
      · rcases Option.mem_toList.mp hb with hb'
        rcases Option.map_eq_some'.mp hb' with ⟨i, hi, rfl⟩
        have hiids : i ∈ (idsOf db).filter (fun i => ¬ (i + 1) ∈ idsOf db) :=
          (List.min?_eq_some_iff'.mp hi).1
        have := hpos i (List.mem_filter.mp hiids).1
        omega

/-- A table always leaves some positive id free, and hence has a least free
positive id. -/
theorem exists_least_free (db : List PeeringRecord) :
    ∃ m, (1 ≤ m ∧ ¬ m ∈ idsOf db) ∧ ∀ k, 1 ≤ k → ¬ k ∈ idsOf db → m ≤ k := by
  have hex : ∃ n, 1 ≤ n ∧ ¬ n ∈ idsOf db := by
    refine ⟨(idsOf db).foldr max 0 + 1, by omega, ?_⟩
    intro hmem
    have hle : (idsOf db).foldr max 0 + 1 ≤ (idsOf db).foldr max 0 :=
      List.le_max_of_le hmem le_rfl
    omega
  classical
  refine ⟨Nat.find hex, Nat.find_spec hex, ?_⟩
  intro k hk1 hkfree
  exact Nat.find_min' hex ⟨hk1, hkfree⟩

/-- Whenever capacity remains, a `peer_create` with a fresh `as_num` and a
valid port succeeds and appends the row holding the least free id. -/
theorem peer_create_success (db : List PeeringRecord) (a : ℕ) (k e : String) (p : ℕ)
    (ll : Option String) (hpos : ∀ i ∈ idsOf db, 1 ≤ i) (hfresh : ¬ a ∈ asnsOf db)
    (hport : 1 ≤ p ∧ p ≤ 65535) (hcap : ∃ n, 1 ≤ n ∧ n ≤ 65535 ∧ ¬ n ∈ idsOf db) :
    ∃ m, 1 ≤ m ∧ m ≤ 65535 ∧ ¬ m ∈ idsOf db ∧
      peer_create db a k e p ll = (true, db ++ [⟨m, a, k, e, p, ll⟩]) := by
  obtain ⟨m, ⟨hm1, hmfree⟩, hleast⟩ := exists_least_free db
  obtain ⟨n, hn1, hn2, hnfree⟩ := hcap
  have hm65535 : m ≤ 65535 := le_trans (hleast n hn1 hnfree) hn2
  refine ⟨m, hm1, hm65535, hmfree, ?_⟩
  unfold peer_create
  rw [unusedId_eq_of_least_free db hpos m hm1 hmfree hleast]
  simp [hm1, hm65535, hmfree, hfresh, hport.1, hport.2]

/-- Any run of `peer_create` either leaves the table unchanged and reports
failure, or appends exactly one row whose id satisfied every constraint
checked by the insert. -/
theorem peer_create_result (db : List PeeringRecord) (a : ℕ) (k e : String) (p : ℕ)
    (ll : Option String) :
    peer_create db a k e p ll = (false, db) ∨
    ∃ m, peer_create db a k e p ll = (true, db ++ [⟨m, a, k, e, p, ll⟩]) ∧
      1 ≤ m ∧ m ≤ 65535 ∧ ¬ m ∈ idsOf db ∧ ¬ a ∈ asnsOf db ∧ 1 ≤ p ∧ p ≤ 65535 := by
  unfold peer_create
  cases unusedId db with
  | none => exact Or.inl rfl
  | some i =>
    by_cases h : 1 ≤ i ∧ i ≤ 65535 ∧ ¬ i ∈ idsOf db ∧ ¬ a ∈ asnsOf db ∧ 1 ≤ p ∧ p ≤ 65535
    · right
      refine ⟨i, ?_, h.1, h.2.1, h.2.2.1, h.2.2.2.1, h.2.2.2.2.1, h.2.2.2.2.2⟩
      simp [h]
    · left
      simp [h]

/-! ## C1: lowest-gap id allocation and capacity exhaustion -/

/-- C1: on a store whose ids respect the table constraints, a `create` for a
fresh `ownerKey` with a valid port (i) inserts its record with the smallest
integer of `[1,65535]` that is not an allocated id, whenever such an integer
exists, and (ii) fails leaving the store unchanged when every integer of
`[1,65535]` is allocated. -/
theorem peer_create_gap_scan (db : List PeeringRecord) (a : ℕ) (k e : String) (p : ℕ)
    (ll : Option String) (hids : ∀ i ∈ idsOf db, 1 ≤ i ∧ i ≤ 65535)
    (hfresh : ¬ a ∈ asnsOf db) (hport : 1 ≤ p ∧ p ≤ 65535) :
    (∀ m, 1 ≤ m → ¬ m ∈ idsOf db → (∀ j, 1 ≤ j → ¬ j ∈ idsOf db → m ≤ j) → m ≤ 65535 →
      peer_create db a k e p ll = (true, db ++ [⟨m, a, k, e, p, ll⟩])) ∧
    ((∀ n, 1 ≤ n → n ≤ 65535 → n ∈ idsOf db) →
      peer_create db a k e p ll = (false, db)) := by
  have hpos : ∀ i ∈ idsOf db, 1 ≤ i := fun i hi => (hids i hi).1
  constructor
  · intro m hm1 hmfree hleast hm2
    unfold peer_create
    rw [unusedId_eq_of_least_free db hpos m hm1 hmfree hleast]
    simp [hm1, hm2, hmfree, hfresh, hport.1, hport.2]
  · intro hfull
    have hbig : ¬ (65536 : ℕ) ∈ idsOf db := by
      intro hmem
      have := (hids _ hmem).2
      omega
    have hleast : ∀ j, 1 ≤ j → ¬ j ∈ idsOf db → (65536 : ℕ) ≤ j := by
      intro j hj1 hjfree
      by_contra hlt
      exact hjfree (hfull j hj1 (by omega))
    unfold peer_create
    rw [unusedId_eq_of_least_free db hpos 65536 (by omega) hbig hleast]
    simp

/-- Records with ids `{1,2,3}`, mirroring the spec's reuse scenario. -/
def sampleDb3 : List PeeringRecord :=
  [⟨1, 10, "k1", "2001:db8::1", 51000, none⟩,
   ⟨2, 20, "k2", "2001:db8::2", 51001, none⟩,
   ⟨3, 30, "k3", "2001:db8::3", 51002, none⟩]

/-- The store `{1,2,3}` after the record holding id `2` is removed. -/
def sampleDbGap : List PeeringRecord := (peer_remove sampleDb3 20).2

/-- Witness for C1: after ids `{1,2,3}` lose id `2`, the next `create` is
assigned id `2`. -/
theorem peer_create_gap_scan_witness :
    (∀ i ∈ idsOf sampleDbGap, 1 ≤ i ∧ i ≤ 65535) ∧ ¬ (20 : ℕ) ∈ asnsOf sampleDbGap ∧
    peer_create sampleDbGap 20 "k2" "2001:db8::2" 51001 none
      = (true, sampleDbGap ++ [⟨2, 20, "k2", "2001:db8::2", 51001, none⟩]) :=
  ⟨by decide, by decide,
    (peer_create_gap_scan sampleDbGap 20 "k2" "2001:db8::2" 51001 none (by decide) (by decide)
        (by decide)).1 2 (by decide) (by decide)
      (by
        intro j hj1 hjfree
        have h1 : j ≠ 1 := by
          rintro rfl
          exact hjfree (by decide)
        omega)
      (by decide)⟩

/-! ## C3: `create` on an already-registered ownerKey fails without change -/

/-- C3: whenever the `ownerKey` (`as_num`) already has a record, `peer_create`
reports failure (the `as_num UNIQUE` constraint raises `IntegrityError`, the
transaction rolls back) and the stored record set is unchanged. -/
theorem peer_create_conflict (db : List PeeringRecord) (a : ℕ) (k e : String) (p : ℕ)
    (ll : Option String) (hconf : a ∈ asnsOf db) :
    peer_create db a k e p ll = (false, db) := by
  unfold peer_create
  cases unusedId db with
  | none => rfl
  | some i => simp [hconf]

/-- Witness for C3: creating a second record for ownerKey `10` fails and the
store is byte-for-byte unchanged. -/
theorem peer_create_conflict_witness :
    (10 : ℕ) ∈ asnsOf sampleDb3 ∧
    peer_create sampleDb3 10 "other" "2001:db8::9" 4000 none = (false, sampleDb3) :=
  ⟨by decide, peer_create_conflict sampleDb3 10 "other" "2001:db8::9" 4000 none (by decide)⟩

/-! ## C4: behaviour of `peer_remove` on absent ownerKeys -/

/-- Counterexample to C4: removing an ownerKey with no record does NOT fail
with a not-found error — `DELETE` matching zero rows is not an SQLite error,
so `peer_remove` reports success (`True`).  In the spec's own scenario, the
second `peer_remove` of ownerKey `100` still returns `True`. -/
theorem peer_remove_notfound_counterexample :
    peer_remove [⟨1, 100, "K", "2001:db8::1", 51000, none⟩] 100 = (true, []) ∧
    peer_remove ([] : List PeeringRecord) 100 = (true, []) := by
  constructor <;> rfl

/-- C4 (amended): `peer_remove` on an ownerKey without a record succeeds as a
no-op (returns `True`, store unchanged — the user-facing not-found report is
produced by the shell layer, which refuses to call remove when the key has no
record); when a record exists, `peer_remove` deletes it, the ownerKey is gone
from the store and the record's slotId is freed for reuse. -/
theorem peer_remove_amended (db : List PeeringRecord) (a : ℕ) (hnodup : (idsOf db).Nodup) :
    (¬ a ∈ asnsOf db → peer_remove db a = (true, db)) ∧
    (peer_remove db a).1 = true ∧
    ¬ a ∈ asnsOf (peer_remove db a).2 ∧
    (∀ r ∈ db, r.as_num = a → ¬ r.id ∈ idsOf (peer_remove db a).2) := by
  refine ⟨?_, rfl, ?_, ?_⟩
  · intro habs
    have hall : ∀ r ∈ db, ¬ r.as_num = a := by
      intro r hr hra
      exact habs (List.mem_map.mpr ⟨r, hr, hra⟩)
    unfold peer_remove
    rw [List.filter_eq_self.mpr]
    intro r hr
    simpa using hall r hr
  · intro hmem
    rcases List.mem_map.mp hmem with ⟨r, hr, hra⟩
    have hrf := List.mem_filter.mp hr
    have : ¬ r.as_num = a := by simpa using hrf.2
    exact this hra
  · intro r hr hra hidmem
    rcases List.mem_map.mp hidmem with ⟨r', hr', hid⟩
    have hr'f := List.mem_filter.mp hr'
    have hr'db : r' ∈ db := hr'f.1
    have hr'ne : ¬ r'.as_num = a := by simpa using hr'f.2
    have heq : r' = r := List.inj_on_of_nodup_map hnodup hr'db hr hid
    exact hr'ne (heq ▸ hra)

/-- Witness for the amended C4: on the `{1,2,3}` store, removing ownerKey `20`
succeeds, ownerKey `20` disappears and slot id `2` is freed, while removing
the absent ownerKey `99` leaves the store untouched. -/
theorem peer_remove_amended_witness :
    peer_remove sampleDb3 99 = (true, sampleDb3) ∧
    ¬ (20 : ℕ) ∈ asnsOf (peer_remove sampleDb3 20).2 :=
  ⟨(peer_remove_amended sampleDb3 99 (by decide)).1 (by decide),
   (peer_remove_amended sampleDb3 20 (by decide)).2.2.1⟩

/-! ## C2: serialized concurrent creates never collide -/

/-- The id column of an extended table. -/
theorem idsOf_append (db l : List PeeringRecord) : idsOf (db ++ l) = idsOf db ++ idsOf l :=
  List.map_append _ _ _

/-- The owner column of an extended table. -/
theorem asnsOf_append (db l : List PeeringRecord) : asnsOf (db ++ l) = asnsOf db ++ asnsOf l :=
  List.map_append _ _ _

/-- Running two serialized `peer_create`s for distinct fresh ownerKeys, with
at least two free ids in `[1,65535]`, makes both succeed with distinct ids. -/
theorem peer_create_seq_two (db : List PeeringRecord) (a b : ℕ) (ka ea kb eb : String)
    (pa pb : ℕ) (la lb : Option String) (hpos : ∀ i ∈ idsOf db, 1 ≤ i) (hab : a ≠ b)
    (hfa : ¬ a ∈ asnsOf db) (hfb : ¬ b ∈ asnsOf db)
    (hpa : 1 ≤ pa ∧ pa ≤ 65535) (hpb : 1 ≤ pb ∧ pb ≤ 65535)
    (hcap : ∃ n1 n2, ¬ n1 = n2 ∧ (1 ≤ n1 ∧ n1 ≤ 65535 ∧ ¬ n1 ∈ idsOf db)
      ∧ (1 ≤ n2 ∧ n2 ≤ 65535 ∧ ¬ n2 ∈ idsOf db)) :
    ∃ m1 m2, ¬ m1 = m2 ∧
      peer_create db a ka ea pa la = (true, db ++ [⟨m1, a, ka, ea, pa, la⟩]) ∧
      peer_create (db ++ [⟨m1, a, ka, ea, pa, la⟩]) b kb eb pb lb
        = (true, (db ++ [⟨m1, a, ka, ea, pa, la⟩]) ++ [⟨m2, b, kb, eb, pb, lb⟩]) := by
  obtain ⟨n1, n2, hn12, ⟨hn11, hn12', hn1f⟩, ⟨hn21, hn22, hn2f⟩⟩ := hcap
  obtain ⟨m1, hm11, hm12, hm1f, heq1⟩ :=
    peer_create_success db a ka ea pa la hpos hfa hpa ⟨n1, hn11, hn12', hn1f⟩
  set db1 := db ++ [⟨m1, a, ka, ea, pa, la⟩] with hdb1
  have hids1 : idsOf db1 = idsOf db ++ [m1] := by
    rw [hdb1, idsOf_append]; rfl
  have hasns1 : asnsOf db1 = asnsOf db ++ [a] := by
    rw [hdb1, asnsOf_append]; rfl
  have hpos1 : ∀ i ∈ idsOf db1, 1 ≤ i := by
    intro i hi
    rw [hids1] at hi
    rcases List.mem_append.mp hi with h | h
    · exact hpos i h
    · have : i = m1 := by simpa using h
      omega
  have hfb1 : ¬ b ∈ asnsOf db1 := by
    rw [hasns1]
    intro h
    rcases List.mem_append.mp h with h | h
    · exact hfb h
    · have hba : b = a := by simpa using h
      exact hab hba.symm
  have hcap1 : ∃ n, 1 ≤ n ∧ n ≤ 65535 ∧ ¬ n ∈ idsOf db1 := by
    by_cases hn1m : n1 = m1
    · refine ⟨n2, hn21, hn22, ?_⟩
      rw [hids1]
      intro h
      rcases List.mem_append.mp h with h | h
      · exact hn2f h
      · exact hn12 (by simp at h; omega)
    · refine ⟨n1, hn11, hn12', ?_⟩
      rw [hids1]
      intro h
      rcases List.mem_append.mp h with h | h
      · exact hn1f h
      · exact hn1m (by simpa using h)
  obtain ⟨m2, hm21, hm22, hm2f, heq2⟩ :=
    peer_create_success db1 b kb eb pb lb hpos1 hfb1 hpb hcap1
  refine ⟨m1, m2, ?_, heq1, heq2⟩
  intro hm
  apply hm2f
  rw [hids1, hm]
  simp

/-- C2: with distinct fresh ownerKeys, valid ports and at least two free ids,
both interleavings of two concurrent `create` calls (each call's id
computation and insert being a single serialized SQL statement, so an
interleaving is one of the two orders) succeed and assign distinct ids —
no interleaving can ever produce a duplicate id. -/
theorem peer_create_concurrent_distinct (db : List PeeringRecord) (a b : ℕ)
    (ka ea kb eb : String) (pa pb : ℕ) (la lb : Option String)
    (hpos : ∀ i ∈ idsOf db, 1 ≤ i) (hab : ¬ a = b)
    (hfa : ¬ a ∈ asnsOf db) (hfb : ¬ b ∈ asnsOf db)
    (hpa : 1 ≤ pa ∧ pa ≤ 65535) (hpb : 1 ≤ pb ∧ pb ≤ 65535)
    (hcap : ∃ n1 n2, ¬ n1 = n2 ∧ (1 ≤ n1 ∧ n1 ≤ 65535 ∧ ¬ n1 ∈ idsOf db)
      ∧ (1 ≤ n2 ∧ n2 ≤ 65535 ∧ ¬ n2 ∈ idsOf db)) :
    (∃ m1 m2, ¬ m1 = m2 ∧
      peer_create db a ka ea pa la = (true, db ++ [⟨m1, a, ka, ea, pa, la⟩]) ∧
      peer_create (db ++ [⟨m1, a, ka, ea, pa, la⟩]) b kb eb pb lb
        = (true, (db ++ [⟨m1, a, ka, ea, pa, la⟩]) ++ [⟨m2, b, kb, eb, pb, lb⟩])) ∧
    (∃ m1 m2, ¬ m1 = m2 ∧
      peer_create db b kb eb pb lb = (true, db ++ [⟨m1, b, kb, eb, pb, lb⟩]) ∧
      peer_create (db ++ [⟨m1, b, kb, eb, pb, lb⟩]) a ka ea pa la
        = (true, (db ++ [⟨m1, b, kb, eb, pb, lb⟩]) ++ [⟨m2, a, ka, ea, pa, la⟩])) :=
  ⟨peer_create_seq_two db a b ka ea kb eb pa pb la lb hpos hab hfa hfb hpa hpb hcap,
   peer_create_seq_two db b a kb eb ka ea pb pa lb la hpos (fun h => hab h.symm) hfb hfa
     hpb hpa hcap⟩

/-- Witness for C2: on the `{1,2,3}` store, concurrent creates for the fresh
ownerKeys `40` and `50` both succeed with distinct ids in either order. -/
theorem peer_create_concurrent_distinct_witness :
    (∃ m1 m2, ¬ m1 = m2 ∧
      peer_create sampleDb3 40 "ka" "ea" 4000 none
        = (true, sampleDb3 ++ [⟨m1, 40, "ka", "ea", 4000, none⟩]) ∧
      peer_create (sampleDb3 ++ [⟨m1, 40, "ka", "ea", 4000, none⟩]) 50 "kb" "eb" 5000 none
        = (true, (sampleDb3 ++ [⟨m1, 40, "ka", "ea", 4000, none⟩])
            ++ [⟨m2, 50, "kb", "eb", 5000, none⟩])) ∧
    (∃ m1 m2, ¬ m1 = m2 ∧
      peer_create sampleDb3 50 "kb" "eb" 5000 none
        = (true, sampleDb3 ++ [⟨m1, 50, "kb", "eb", 5000, none⟩]) ∧
      peer_create (sampleDb3 ++ [⟨m1, 50, "kb", "eb", 5000, none⟩]) 40 "ka" "ea" 4000 none
        = (true, (sampleDb3 ++ [⟨m1, 50, "kb", "eb", 5000, none⟩])
            ++ [⟨m2, 40, "ka", "ea", 4000, none⟩])) :=
  peer_create_concurrent_distinct sampleDb3 40 50 "ka" "ea" "kb" "eb" 4000 5000 none none
    (by decide) (by decide) (by decide) (by decide) (by decide) (by decide)
    ⟨4, 5, by decide, by decide, by decide⟩

/-! ## C8: invariants of every reachable store state -/

/-- The store states reachable from the empty table through the two mutating
operations of `DatabaseManager`. -/
inductive Reachable : List PeeringRecord → Prop where
  | init : Reachable []
  | create (db : List PeeringRecord) (a : ℕ) (k e : String) (p : ℕ) (ll : Option String) :
      Reachable db → Reachable (peer_create db a k e p ll).2
  | remove (db : List PeeringRecord) (a : ℕ) :
      Reachable db → Reachable (peer_remove db a).2

/-- The data-model invariant: every stored record keeps its slot id and its
endpoint port inside `[1,65535]`, no two records share a slot id, and no two
records share an ownerKey.  (The remaining required fields — public key and
endpoint address — are total `String`s of the record type, so they are always
populated; `NOT NULL` is enforced by the embedding's types.) -/
def StoreInv (db : List PeeringRecord) : Prop :=
  (∀ r ∈ db, 1 ≤ r.id ∧ r.id ≤ 65535 ∧ 1 ≤ r.wg_endpoint_port ∧ r.wg_endpoint_port ≤ 65535) ∧
  (idsOf db).Nodup ∧ (asnsOf db).Nodup

/-- C8: every reachable store state satisfies the data-model invariant, and
every successful `create` assigns a slot id inside `[1,65535]` that no
already-stored record shares. -/
theorem store_invariants :
    (∀ db, Reachable db → StoreInv db) ∧
    (∀ db (a : ℕ) (k e : String) (p : ℕ) (ll : Option String) db',
      peer_create db a k e p ll = (true, db') →
      ∃ m, db' = db ++ [⟨m, a, k, e, p, ll⟩] ∧ 1 ≤ m ∧ m ≤ 65535 ∧ ¬ m ∈ idsOf db) := by
  have hsucc : ∀ db (a : ℕ) (k e : String) (p : ℕ) (ll : Option String) db',
      peer_create db a k e p ll = (true, db') →
      ∃ m, db' = db ++ [⟨m, a, k, e, p, ll⟩] ∧ 1 ≤ m ∧ m ≤ 65535 ∧ ¬ m ∈ idsOf db ∧
        ¬ a ∈ asnsOf db ∧ 1 ≤ p ∧ p ≤ 65535 := by
    intro db a k e p ll db' heq
    rcases peer_create_result db a k e p ll with h | ⟨m, hm, hrest⟩
    · rw [heq] at h
      simp at h
    · rw [heq] at hm
      have hdb : db' = db ++ [⟨m, a, k, e, p, ll⟩] := congrArg Prod.snd hm
      exact ⟨m, hdb, hrest.1, hrest.2.1, hrest.2.2.1, hrest.2.2.2.1,
        hrest.2.2.2.2.1, hrest.2.2.2.2.2⟩
  constructor
  · intro db hdb
    induction hdb with
    | init => refine ⟨by simp, by simp [idsOf], by simp [asnsOf]⟩
    | create db a k e p ll _ ih =>
      rcases peer_create_result db a k e p ll with h | ⟨m, hm, hm1, hm2, hmid, hmasn, hp1, hp2⟩
      · rw [h]
        exact ih
      · rw [hm]
        obtain ⟨hfields, hidnd, hasnnd⟩ := ih
        refine ⟨?_, ?_, ?_⟩
        · intro r hr
          rcases List.mem_append.mp hr with h | h
          · exact hfields r h
          · have : r = ⟨m, a, k, e, p, ll⟩ := by simpa using h
            subst this
            exact ⟨hm1, hm2, hp1, hp2⟩
        · rw [idsOf_append]
          simp only [List.nodup_append]
          refine ⟨hidnd, by simp [idsOf], ?_⟩
          intro x hx
          simp only [idsOf, List.map_cons, List.map_nil, List.mem_singleton]
          intro hxm
          rw [show x = m from hxm] at hx
          exact hmid hx
        · rw [asnsOf_append]
          simp only [List.nodup_append]
          refine ⟨hasnnd, by simp [asnsOf], ?_⟩
          intro x hx
          simp only [asnsOf, List.map_cons, List.map_nil, List.mem_singleton]
          intro hxa
          rw [show x = a from hxa] at hx
          exact hmasn hx
    | remove db a _ ih =>
      obtain ⟨hfields, hidnd, hasnnd⟩ := ih
      have hsub : (peer_remove db a).2.Sublist db := List.filter_sublist db
      refine ⟨?_, ?_, ?_⟩
      · intro r hr
        exact hfields r (hsub.mem hr)
      · simp only [idsOf] at hidnd ⊢
        exact (hsub.map _).nodup hidnd
      · simp only [asnsOf] at hasnnd ⊢
        exact (hsub.map _).nodup hasnnd
  · intro db a k e p ll db' heq
    obtain ⟨m, h1, h2, h3, h4, -⟩ := hsucc db a k e p ll db' heq
    exact ⟨m, h1, h2, h3, h4⟩

/-- Witness for C8: the store reached by creating owners `10`, `20` (and the
creation's assigned id bounds on the concrete first step) satisfies the
invariant. -/
theorem store_invariants_witness :
    StoreInv (peer_create (peer_create [] 10 "k1" "e1" 51000 none).2 20 "k2" "e2" 51001 none).2 ∧
    ∃ m, (peer_create [] 10 "k1" "e1" 51000 none).2
        = [] ++ [⟨m, 10, "k1", "e1", 51000, none⟩] ∧ 1 ≤ m ∧ m ≤ 65535 ∧ ¬ m ∈ idsOf [] :=
  ⟨store_invariants.1 _ (Reachable.create _ 20 "k2" "e2" 51001 none
      (Reachable.create _ 10 "k1" "e1" 51000 none Reachable.init)),
   store_invariants.2 [] 10 "k1" "e1" 51000 none _ (by rfl)⟩

/-! ## The REPL line editor (`ShellDn42.prompt_line`, lines 104-134) -/

/-- The allow-list `self._allowed_chars` built in `ShellDn42.__init__`
(lines 84-85): alphanumerics, a small fixed punctuation set, and the control
units DEL (`\x7f`), CR and LF. -/
def allowedChars : List Char :=
  "abcdefghijklmnopqrstuvwxyzABCDEFGHIJKLMNOPQRSTUVWXYZ0123456789=:?[]_-.+/ ".toList
    ++ ['\x7f', '\r', '\n']

/-- `ShellDn42.prompt_line`: the input stream is the list of decoded input
units; `line` is the buffer and `echoed` the output sink.  The loop guard
re-checks `len(line) < 80` before every read; ESC (`\x1b`) swallows the next
two units; units outside the allow-list are skipped; CR/LF submits; DEL
erases when the buffer is non-empty and is a no-op otherwise; every other
(accepted) unit is echoed and appended. -/
def promptLineGo (input line echoed : List Char) : List Char × List Char :=
  if 80 ≤ line.length then (line, echoed)
  else
    match input with
    | [] => (line, echoed)
    | c :: rest =>
      if c = '\x1b' then promptLineGo (rest.drop 2) line echoed
      else if ¬ c ∈ allowedChars then promptLineGo rest line echoed
      else if c = '\r' ∨ c = '\n' then (line, echoed ++ ['\r', '\n'])
      else if c = '\x7f' then
        if 0 < line.length then promptLineGo rest line.dropLast (echoed ++ ['\x08', ' ', '\x08'])
        else promptLineGo rest line echoed
      else promptLineGo rest (line ++ [c]) (echoed ++ [c])
termination_by input.length
decreasing_by
  · simp only [List.length_cons, List.length_drop]
    omega
  · simp only [List.length_cons]
    omega
  · simp only [List.length_cons]
    omega
  · simp only [List.length_cons]
    omega
  · simp only [List.length_cons]
    omega

/-- The line returned by one `prompt_line` call on a fresh buffer. -/
def prompt_line (input : List Char) : List Char × List Char := promptLineGo input [] []
/-! ## Single-step behaviour of the line editor -/

/-- A full buffer stops the loop before any read. -/
theorem promptLineGo_stop (input line echoed : List Char) (hlen : 80 ≤ line.length) :
    promptLineGo input line echoed = (line, echoed) := by
  rw [promptLineGo.eq_def]
  simp [hlen]

/-- ESC swallows itself and the next two units, touching neither buffer nor
echo. -/
theorem promptLineGo_esc (rest line echoed : List Char) (hlen : ¬ 80 ≤ line.length) :
    promptLineGo ('\x1b' :: rest) line echoed = promptLineGo (rest.drop 2) line echoed := by
  rw [promptLineGo.eq_def]
  simp [hlen]

/-- A unit outside the allow-list (other than ESC) is silently skipped. -/
theorem promptLineGo_skip (c : Char) (rest line echoed : List Char)
    (hc : ¬ c ∈ allowedChars) (hesc : ¬ c = '\x1b') :
    promptLineGo (c :: rest) line echoed = promptLineGo rest line echoed := by
  by_cases hlen : 80 ≤ line.length
  · rw [promptLineGo_stop _ _ _ hlen, promptLineGo_stop _ _ _ hlen]
  · rw [promptLineGo.eq_def]
    simp [hlen, hesc, hc]

/-- A backspace with an empty buffer is a no-op. -/
theorem promptLineGo_bs_empty (rest echoed : List Char) :
    promptLineGo ('\x7f' :: rest) [] echoed = promptLineGo rest [] echoed := by
  rw [promptLineGo.eq_def]
  norm_num [show ('\x7f' ∈ allowedChars) from by decide,
    show ¬ ('\x7f' = '\x1b') from by decide,
    show ¬ ('\x7f' = '\r') from by decide, show ¬ ('\x7f' = '\n') from by decide]

/-- An accepted printable unit is echoed and appended to the buffer. -/
theorem promptLineGo_plain (c : Char) (rest line echoed : List Char)
    (hlen : ¬ 80 ≤ line.length) (hcal : c ∈ allowedChars) (hcr : ¬ c = '\r')
    (hlf : ¬ c = '\n') (hdel : ¬ c = '\x7f') (hesc : ¬ c = '\x1b') :
    promptLineGo (c :: rest) line echoed = promptLineGo rest (line ++ [c]) (echoed ++ [c]) := by
  rw [promptLineGo.eq_def]
  simp [hlen, hesc, hcal, hcr, hlf, hdel]

/-! ## C7: input sanitation of the line editor -/

/-- C7: (i) a backspace while the buffer is empty changes neither the buffer
nor the echoed output; (ii) a unit outside the allow-list (other than ESC) is
consumed with no echo and no buffering; (iii) any unit outside the allow-list
— ESC included, which additionally swallows the two units of its escape
sequence — leaves the buffer and the echo untouched, the computation resuming
on a suffix of the remaining input; (iv) once the buffer holds 80 units no
further unit is consumed, echoed or appended. -/
theorem prompt_line_sanitization :
    (∀ input echoed, promptLineGo ('\x7f' :: input) [] echoed = promptLineGo input [] echoed) ∧
    (∀ c input line echoed, ¬ c ∈ allowedChars → ¬ c = '\x1b' →
      promptLineGo (c :: input) line echoed = promptLineGo input line echoed) ∧
    (∀ c input line echoed, ¬ c ∈ allowedChars →
      ∃ rest, rest.IsSuffix input ∧
        promptLineGo (c :: input) line echoed = promptLineGo rest line echoed) ∧
    (∀ input line echoed, 80 ≤ line.length → promptLineGo input line echoed = (line, echoed)) := by
  refine ⟨fun input echoed => promptLineGo_bs_empty input echoed,
    fun c input line echoed hc hesc => promptLineGo_skip c input line echoed hc hesc,
    ?_, fun input line echoed hlen => promptLineGo_stop input line echoed hlen⟩
  intro c input line echoed hc
  by_cases hesc : c = '\x1b'
  · subst hesc
    by_cases hlen : 80 ≤ line.length
    · exact ⟨input, List.suffix_rfl,
        by rw [promptLineGo_stop _ _ _ hlen, promptLineGo_stop _ _ _ hlen]⟩
    · exact ⟨input.drop 2, List.drop_suffix 2 input, promptLineGo_esc input line echoed hlen⟩
  · exact ⟨input, List.suffix_rfl, promptLineGo_skip c input line echoed hc hesc⟩

/-- Witness for C7, at concrete inputs: a leading empty-buffer backspace is
dropped from the computation; the disallowed unit `\x01` is skipped; a full
80-unit buffer consumes nothing further. -/
theorem prompt_line_sanitization_witness :
    promptLineGo ['\x7f', 'h', 'i'] [] [] = promptLineGo ['h', 'i'] [] [] ∧
    promptLineGo ['\x01', 'h'] ['a'] [] = promptLineGo ['h'] ['a'] [] ∧
    promptLineGo ['z'] (List.replicate 80 'a') [] = (List.replicate 80 'a', []) :=
  ⟨prompt_line_sanitization.1 ['h', 'i'] [],
   prompt_line_sanitization.2.1 '\x01' ['h'] ['a'] [] (by decide) (by decide),
   prompt_line_sanitization.2.2.2 ['z'] (List.replicate 80 'a') [] (by decide)⟩

/-! ## C10: reaching the 80-unit maximum auto-submits the line -/

/-- C10: on any stream of accepted printable units (no CR, LF, DEL — and
hence no ESC, which is outside the allow-list) long enough to fill the
buffer, the line editor returns as soon as the buffer holds 80 units: the
completed line is the buffer extended to exactly 80 units, submitted without
any carriage return or line feed in the input. -/
theorem prompt_line_autosubmit (input line echoed : List Char)
    (hplain : ∀ c ∈ input, c ∈ allowedChars ∧ ¬ c = '\r' ∧ ¬ c = '\n' ∧ ¬ c = '\x7f')
    (hlong : 80 ≤ line.length + input.length) :
    (promptLineGo input line echoed).1 = line ++ input.take (80 - line.length) := by
  induction input generalizing line echoed with
  | nil =>
    have hlen : 80 ≤ List.length line := by simpa using hlong
    rw [promptLineGo_stop _ _ _ hlen]
    simp [Nat.sub_eq_zero_of_le hlen]
  | cons c rest ih =>
    obtain ⟨hcal, hcr, hlf, hdel⟩ := hplain c (List.mem_cons_self c rest)
    have hesc : ¬ c = '\x1b' := by
      intro h
      rw [h] at hcal
      exact absurd hcal (by decide)
    by_cases hlen : 80 ≤ List.length line
    · rw [promptLineGo_stop _ _ _ hlen]
      simp [Nat.sub_eq_zero_of_le hlen]
    · rw [promptLineGo_plain c rest line echoed hlen hcal hcr hlf hdel hesc]
      have hrest : ∀ x ∈ rest, x ∈ allowedChars ∧ ¬ x = '\r' ∧ ¬ x = '\n' ∧ ¬ x = '\x7f' :=
        fun x hx => hplain x (List.mem_cons_of_mem c hx)
      have hlong' : 80 ≤ (line ++ [c]).length + rest.length := by
        simp only [List.length_append, List.length_cons] at hlong ⊢
        omega
      rw [ih (line ++ [c]) (echoed ++ [c]) hrest hlong']
      have htake : (c :: rest).take (80 - List.length line)
          = c :: rest.take (80 - (List.length line + 1)) := by
        have h80 : 80 - List.length line = (80 - (List.length line + 1)) + 1 := by omega
        rw [h80, List.take_succ_cons]
      rw [htake]
      simp [List.append_assoc]

/-- Witness for C10: 81 plain units with no CR/LF yield exactly the first 80
as the submitted line. -/
theorem prompt_line_autosubmit_witness :
    (promptLineGo (List.replicate 81 'a') [] []).1
      = [] ++ (List.replicate 81 'a').take 80 :=
  prompt_line_autosubmit (List.replicate 81 'a') [] [] (by decide) (by decide)

/-! ## The shell command layer (`ShellDn42`, lines 300-513)

The shell works on the decoded prompt answers; `inputs` lists the successive
`rich_prompt` replies (a missing reply is the empty string, as `prompt_line`
returns `''` on end-of-stream).  The external collaborators of spec §6 —
`get_ipv6` (DNS resolution), `validate_ipv6` (psutil interface scan and
forbidden-network check) — are passed as function parameters.  Owner keys are
digit strings at the shell layer (`as_maintained_by` returns registry file
names with the `AS` sliced off) and integers in the store (SQLite integer
affinity).  String scanning is expressed over `String.data` so that every
definition evaluates inside the kernel. -/

/-- The reply to the `i`-th prompt of a command. -/
def inp (inputs : List String) (i : ℕ) : String := (inputs.get? i).getD ""

/-- `re.match('^[0-9]+$', s)`: a non-empty all-digit string. -/
def isDigits (s : String) : Bool := !s.data.isEmpty && s.data.all (·.isDigit)

/-- `re.match('^[0-9a-zA-Z+/]{43}=$', s)`: 43 base64 units followed by `=`. -/
def isWgKey (s : String) : Bool :=
  s.data.length == 44
    && (s.data.take 43).all (fun c => c.isAlphanum || c == '+' || c == '/')
    && s.data.drop 43 == ['=']

/-- The integer SQLite's numeric affinity extracts from a digit string
(`int(s)` on the Python side after the `^[0-9]+$` check). -/
def asNat (s : String) : ℕ := s.data.foldl (fun n c => 10 * n + (c.toNat - 48)) 0

/-- Whether the store holds a row for the key `s`: the TEXT operand is
compared with the INTEGER `as_num` column under numeric affinity, so a
non-numeric string matches nothing. -/
def hasPeer (db : List PeeringRecord) (s : String) : Bool :=
  isDigits s && decide (asNat s ∈ asnsOf db)

/-- `DatabaseManager.get_peer_list` (lines 84-102) key set: the caller's
maintained keys (in registry order) that currently hold a record. -/
def peerListKeys (authorized : List String) (db : List PeeringRecord) : List String :=
  authorized.filter (fun s => hasPeer db s)

/-- Python's `str.strip()` on the decoded units. -/
def strip (s : String) : String :=
  String.mk ((((s.data.dropWhile (·.isWhitespace)).reverse).dropWhile (·.isWhitespace)).reverse)

/-- The row view assembled by `DatabaseManager.get_peer_config`
(lines 55-82); the port is rendered back to text by `str(...)`. -/
structure PeerConfig where
  id : ℕ
  wg_pub_key : String
  wg_endpoint_addr : String
  wg_endpoint_port : String
  ll_address : String
deriving Repr, DecidableEq

/-- `hex(n)[2:]`: lowercase hexadecimal digits without the `0x`. -/
def hexStr (n : ℕ) : String := String.mk (Nat.toDigits 16 n)

/-- `DatabaseManager.get_peer_config` (lines 55-82): first row matching the
key, with the link-local address taken from the row when truthy (non-NULL,
non-empty) and otherwise derived from the slot id and the environment's
link-local prefix `llpfx` (`DN42_WG_LINK_LOCAL_PREFIX`). -/
def get_peer_config (llpfx : String) (db : List PeeringRecord) (as_num : ℕ) :
    Option PeerConfig :=
  match db.find? (fun r => r.as_num == as_num) with
  | none => none
  | some r =>
    let peer_address :=
      match r.user_link_local with
      | some s => if s.data.isEmpty then llpfx ++ "2:" ++ hexStr r.id else s
      | none => llpfx ++ "2:" ++ hexStr r.id
    some ⟨r.id, r.wg_pub_key, r.wg_endpoint_addr, toString r.wg_endpoint_port, peer_address⟩

/-- The user-visible outcome of a shell command, one constructor per distinct
message of `shell_dn42.py` (the `shown`/`statusShown` outcomes carry the
record data the command renders; `do_peer_config`'s later local-configuration
rendering is outside the record data itself). -/
inductive ShellMsg where
  | malformedAsn
  | notManaged (a : String)
  | alreadyExists (a : String)
  | malformedKey
  | badEndpoint
  | forbiddenEndpoint (ip : String)
  | malformedPort
  | portOutOfRange
  | badLinkLocal
  | created (a : String)
  | createFailed (a : String)
  | noSession
  | noSessionForAs
  | shown (a : ℕ) (cfg : Option PeerConfig)
  | removed (a : String)
  | abortRemoval
  | removeFailed (a : String)
  | statusShown (a : String)
deriving Repr, DecidableEq

/-- Result of one shell command: whether the command prompted for an AS
number, its final message, and the store afterwards. -/
structure ShellResult where
  askedAs : Bool
  msg : ShellMsg
  db : List PeeringRecord
deriving Repr, DecidableEq

/-- Modelled from the spec: `validate_link_local_ipv6` is imported by
`shell_dn42.py` but absent from `src/utils_network.py`; per §4.2 the optional
custom local address "must lie within the link-local address block and differ
from the system's own link-local address".  It is treated as an external
predicate parameter (`validLL`) of the create command, like the other
address-validation collaborators. -/
def validLinkLocalModel (validLL : String → Bool) (s : String) : Bool := validLL s

/-- `ShellDn42.do_peer_create` (lines 300-368): reads the key list, prompts
for the AS number (always — `askedAs = true` on every path), validates it
against the maintained set and the existing sessions, then prompts for the
WireGuard key, endpoint address, port and optional link-local address, each
validated in turn; only then does it call `DatabaseManager.peer_create`. -/
def do_peer_create (authorized : List String) (db : List PeeringRecord)
    (resolve : String → List String) (validIp validLL : String → Bool)
    (inputs : List String) : ShellResult :=
  let pl := peerListKeys authorized db
  let a := inp inputs 0
  if isDigits a = false then ⟨true, .malformedAsn, db⟩
  else if ¬ a ∈ authorized then ⟨true, .notManaged a, db⟩
  else if a ∈ pl then ⟨true, .alreadyExists a, db⟩
  else
    let k := inp inputs 1
    if isWgKey k = false then ⟨true, .malformedKey, db⟩
    else
      let ea := inp inputs 2
      let ips := resolve ea
      if ips.isEmpty then ⟨true, .badEndpoint, db⟩
      else
        match ips.find? (fun ip => !validIp ip) with
        | some ip => ⟨true, .forbiddenEndpoint ip, db⟩
        | none =>
          let p := inp inputs 3
          if isDigits p = false then ⟨true, .malformedPort, db⟩
          else if ¬ (1 ≤ asNat p ∧ asNat p ≤ 65535) then ⟨true, .portOutOfRange, db⟩
          else
            let ui := strip (inp inputs 4)
            if !ui.data.isEmpty && !validLinkLocalModel validLL ui then
              ⟨true, .badLinkLocal, db⟩
            else
              let ll : Option String := if ui.data.isEmpty then none else some ui
              match peer_create db (asNat a) k ea (asNat p) ll with
              | (true, db') => ⟨true, .created a, db'⟩
              | (false, db') => ⟨true, .createFailed a, db'⟩

/-- `ShellDn42.do_peer_config` (lines 370-431): auto-selects the key when the
caller's session list has exactly one entry (`next(iter(peer_list))` is its
head), reports `noSession` when it has none, and otherwise prompts, rejecting
any reply outside the session list; the command never mutates the store. -/
def do_peer_config (llpfx : String) (authorized : List String) (db : List PeeringRecord)
    (inputs : List String) : ShellResult :=
  let pl := peerListKeys authorized db
  if pl.length = 1 then
    let a := pl.headD ""
    ⟨false, .shown (asNat a) (get_peer_config llpfx db (asNat a)), db⟩
  else if pl.length = 0 then ⟨false, .noSession, db⟩
  else
    let a := inp inputs 0
    if ¬ a ∈ pl then ⟨true, .noSessionForAs, db⟩
    else ⟨true, .shown (asNat a) (get_peer_config llpfx db (asNat a)), db⟩

/-- `ShellDn42.do_peer_remove` (lines 456-486): same selection logic, then a
literal `YES` confirmation before `DatabaseManager.peer_remove` runs. -/
def do_peer_remove (authorized : List String) (db : List PeeringRecord)
    (inputs : List String) : ShellResult :=
  let pl := peerListKeys authorized db
  if pl.length = 1 then
    let a := pl.headD ""
    let confirm := inp inputs 0
    if ¬ confirm = "YES" then ⟨false, .abortRemoval, db⟩
    else
      match peer_remove db (asNat a) with
      | (true, db') => ⟨false, .removed a, db'⟩
      | (false, db') => ⟨false, .removeFailed a, db'⟩
  else if pl.length = 0 then ⟨false, .noSession, db⟩
  else
    let a := inp inputs 0
    if ¬ a ∈ pl then ⟨true, .noSessionForAs, db⟩
    else
      let confirm := inp inputs 1
      if ¬ confirm = "YES" then ⟨true, .abortRemoval, db⟩
      else
        match peer_remove db (asNat a) with
        | (true, db') => ⟨true, .removed a, db'⟩
        | (false, db') => ⟨true, .removeFailed a, db'⟩

/-- `ShellDn42.do_peer_status` (lines 488-513): same selection logic; the
status itself comes from external `wg`/`birdc` probes and never touches the
store. -/
def do_peer_status (authorized : List String) (db : List PeeringRecord)
    (inputs : List String) : ShellResult :=
  let pl := peerListKeys authorized db
  if pl.length = 1 then ⟨false, .statusShown (pl.headD ""), db⟩
  else if pl.length = 0 then ⟨false, .noSession, db⟩
  else
    let a := inp inputs 0
    if ¬ a ∈ pl then ⟨true, .noSessionForAs, db⟩
    else ⟨true, .statusShown a, db⟩

/-- Every key in the session list is an authorized key holding a record. -/
theorem mem_peerListKeys {authorized : List String} {db : List PeeringRecord} {s : String} :
    s ∈ peerListKeys authorized db ↔ s ∈ authorized ∧ hasPeer db s = true := by
  simp [peerListKeys, List.mem_filter]

/-! ## C6: commands referencing unauthorized owner keys -/

/-- Counterexample to C6: a session maintaining keys `10` and `30` (both with
records) that requests key `20` in `peer_config` — a key that exists in the
store but is not authorized — receives the not-found message `"There is no
peering session for this AS"` (`noSessionForAs`), not the authorization
message `"ASxx is not managed by you"` (`notManaged`) that `peer_create`
issues; the spec's `AuthorizationError` is therefore not what `peer_config`
reports. -/
theorem do_peer_config_auth_counterexample :
    (20 : ℕ) ∈ asnsOf
      [⟨1, 10, "k1", "e1", 51000, none⟩, ⟨2, 30, "k2", "e2", 51001, none⟩,
       ⟨3, 20, "k3", "e3", 51002, none⟩] ∧
    ¬ "20" ∈ ["10", "30"] ∧
    do_peer_config "fe80::" ["10", "30"]
      [⟨1, 10, "k1", "e1", 51000, none⟩, ⟨2, 30, "k2", "e2", 51001, none⟩,
       ⟨3, 20, "k3", "e3", 51002, none⟩] ["20"]
      = ⟨true, .noSessionForAs,
          [⟨1, 10, "k1", "e1", 51000, none⟩, ⟨2, 30, "k2", "e2", 51001, none⟩,
           ⟨3, 20, "k3", "e3", 51002, none⟩]⟩ ∧
    ¬ ShellMsg.noSessionForAs = ShellMsg.notManaged "20" := by
  refine ⟨by decide, by decide, by decide, by decide⟩

/-- C6 (amended): an owner key referenced by a command but outside the
session's authorized set is rejected with no store mutation and no record
data returned for it — `peer_create` rejects it with the `"is not managed by
you"` authorization error, while `peer_config` (whose selectable set is
restricted to authorized keys holding records) rejects an explicitly
requested unauthorized key with the `"no peering session for this AS"`
not-found message rather than an authorization error; `peer_config` only
ever returns record data for authorized keys, and never mutates the store. -/
theorem auth_scoping (llpfx : String) (authorized : List String) (db : List PeeringRecord)
    (resolve : String → List String) (validIp validLL : String → Bool)
    (inputs : List String) :
    (isDigits (inp inputs 0) = true → ¬ (inp inputs 0) ∈ authorized →
      do_peer_create authorized db resolve validIp validLL inputs
        = ⟨true, .notManaged (inp inputs 0), db⟩) ∧
    (∀ a cfg, (do_peer_config llpfx authorized db inputs).msg = .shown a cfg →
      ∃ s, s ∈ authorized ∧ hasPeer db s = true ∧ a = asNat s) ∧
    (2 ≤ (peerListKeys authorized db).length → ¬ (inp inputs 0) ∈ authorized →
      do_peer_config llpfx authorized db inputs = ⟨true, .noSessionForAs, db⟩) ∧
    (do_peer_config llpfx authorized db inputs).db = db := by
  refine ⟨?_, ?_, ?_, ?_⟩
  · intro hdig hnot
    unfold do_peer_create
    rw [if_neg (by simp [hdig]), if_pos hnot]
  · intro a cfg
    unfold do_peer_config
    by_cases h1 : (peerListKeys authorized db).length = 1
    · rw [if_pos h1]
      intro h
      simp only [ShellMsg.shown.injEq] at h
      obtain ⟨z, hz⟩ := List.length_eq_one.mp h1
      have hzmem : z ∈ peerListKeys authorized db := hz ▸ List.mem_cons_self z []
      have hhead : (peerListKeys authorized db).headD "" = z := by rw [hz]; rfl
      refine ⟨z, (mem_peerListKeys.mp hzmem).1, (mem_peerListKeys.mp hzmem).2, ?_⟩
      rw [← h.1, hhead]
    · rw [if_neg h1]
      by_cases h0 : (peerListKeys authorized db).length = 0
      · rw [if_pos h0]
        intro h
        simp at h
      · rw [if_neg h0]
        by_cases hin : inp inputs 0 ∈ peerListKeys authorized db
        · rw [if_neg (by simpa using hin)]
          intro h
          simp only [ShellMsg.shown.injEq] at h
          exact ⟨inp inputs 0, (mem_peerListKeys.mp hin).1, (mem_peerListKeys.mp hin).2,
            h.1.symm⟩
        · rw [if_pos hin]
          intro h
          simp at h
  · intro hlen hnot
    unfold do_peer_config
    rw [if_neg (by omega), if_neg (by omega), if_pos]
    intro hin
    exact hnot (mem_peerListKeys.mp hin).1
  · unfold do_peer_config
    by_cases h1 : (peerListKeys authorized db).length = 1
    · rw [if_pos h1]
    · rw [if_neg h1]
      by_cases h0 : (peerListKeys authorized db).length = 0
      · rw [if_pos h0]
      · rw [if_neg h0]
        by_cases hin : inp inputs 0 ∈ peerListKeys authorized db
        · rw [if_neg (by simpa using hin)]
        · rw [if_pos hin]

/-- Witness for the amended C6: a session maintaining only key `10` gets the
authorization error when creating for key `20`, and the not-found rejection
when requesting key `20` in `peer_config` while maintaining keys `10` and
`30`. -/
theorem auth_scoping_witness :
    do_peer_create ["10"] [] (fun _ => []) (fun _ => true) (fun _ => true) ["20"]
      = ⟨true, .notManaged "20", []⟩ ∧
    do_peer_config "fe80::" ["10", "30"]
      [⟨1, 10, "k1", "e1", 51000, none⟩, ⟨2, 30, "k2", "e2", 51001, none⟩] ["20"]
      = ⟨true, .noSessionForAs,
          [⟨1, 10, "k1", "e1", 51000, none⟩, ⟨2, 30, "k2", "e2", 51001, none⟩]⟩ :=
  ⟨(auth_scoping "fe80::" ["10"] [] (fun _ => []) (fun _ => true) (fun _ => true)
      ["20"]).1 (by decide) (by decide),
   (auth_scoping "fe80::" ["10", "30"]
      [⟨1, 10, "k1", "e1", 51000, none⟩, ⟨2, 30, "k2", "e2", 51001, none⟩]
      (fun _ => []) (fun _ => true) (fun _ => true) ["20"]).2.2.1 (by decide) (by decide)⟩

/-- The session list of a caller maintaining exactly one key. -/
theorem peerListKeys_singleton (a : String) (db : List PeeringRecord) :
    peerListKeys [a] db = if hasPeer db a then [a] else [] := by
  cases hp : hasPeer db a <;> simp [peerListKeys, hp]

/-! ## C9: owner-key auto-selection for single-key sessions -/

/-- Counterexample to C9: `do_peer_create` prompts for the AS number even
when the authorized owner-key set has exactly one member (line 313 runs
unconditionally), so not every single-key command auto-selects. -/
theorem do_peer_create_prompts_counterexample :
    (["10"] : List String).length = 1 ∧
    (do_peer_create ["10"] [] (fun _ => []) (fun _ => true) (fun _ => true)
      ["10"]).askedAs = true := by
  refine ⟨by decide, by decide⟩

/-- C9 (amended): `peer_config`, `peer_remove` and `peer_status` never prompt
for an owner key when the caller maintains exactly one key — they auto-select
it when it holds a record (operating on that key) and report `noSession`
without prompting otherwise; `peer_create`, however, always prompts for the
owner key, whatever the authorized set. -/
theorem singleton_auto_select (llpfx : String) (a : String) (db : List PeeringRecord)
    (inputs : List String) :
    (do_peer_config llpfx [a] db inputs).askedAs = false ∧
    (do_peer_remove [a] db inputs).askedAs = false ∧
    (do_peer_status [a] db inputs).askedAs = false ∧
    (hasPeer db a = true →
      (do_peer_config llpfx [a] db inputs).msg
          = .shown (asNat a) (get_peer_config llpfx db (asNat a)) ∧
      (do_peer_status [a] db inputs).msg = .statusShown a) ∧
    (∀ (authorized : List String) (resolve : String → List String)
        (validIp validLL : String → Bool) (ins : List String),
      (do_peer_create authorized db resolve validIp validLL ins).askedAs = true) := by
  refine ⟨?_, ?_, ?_, ?_, ?_⟩
  · unfold do_peer_config
    rw [peerListKeys_singleton]
    cases hp : hasPeer db a <;> simp
  · unfold do_peer_remove
    rw [peerListKeys_singleton]
    cases hp : hasPeer db a
    · simp
    · simp only [if_true, List.length_cons, List.length_nil]
      split
      · rfl
      · rfl
  · unfold do_peer_status
    rw [peerListKeys_singleton]
    cases hp : hasPeer db a <;> simp
  · intro hp
    unfold do_peer_config do_peer_status
    rw [peerListKeys_singleton, hp]
    simp
  · intro authorized resolve validIp validLL ins
    simp only [do_peer_create]
    repeat' split
    all_goals rfl

/-- Witness for the amended C9: with the single maintained key `10` holding a
record, `peer_config`, `peer_remove` and `peer_status` do not prompt for a
key and `peer_config` shows key `10`'s data, while `peer_create` still
prompts. -/
theorem singleton_auto_select_witness :
    (do_peer_config "fe80::" ["10"] [⟨1, 10, "k", "e", 51000, none⟩] []).askedAs = false ∧
    (do_peer_remove ["10"] [⟨1, 10, "k", "e", 51000, none⟩] []).askedAs = false ∧
    (do_peer_status ["10"] [⟨1, 10, "k", "e", 51000, none⟩] []).askedAs = false ∧
    (do_peer_config "fe80::" ["10"] [⟨1, 10, "k", "e", 51000, none⟩] []).msg
      = .shown (asNat "10") (get_peer_config "fe80::" [⟨1, 10, "k", "e", 51000, none⟩]
          (asNat "10")) ∧
    (do_peer_create ["10"] [⟨1, 10, "k", "e", 51000, none⟩] (fun _ => []) (fun _ => true)
      (fun _ => true) []).askedAs = true :=
  have h := singleton_auto_select "fe80::" "10" [⟨1, 10, "k", "e", 51000, none⟩] []
  ⟨h.1, h.2.1, h.2.2.1, (h.2.2.2.1 (by decide)).1,
   h.2.2.2.2 ["10"] (fun _ => []) (fun _ => true) (fun _ => true) []⟩

/-! ## C5: resource release on every session exit path

`SSHServerShell.connection_function` (`ssh_server_shell.py`, lines 33-73)
wraps the channel in a file object, constructs the shell and runs
`cmdloop()` inside a `try`/`except BaseException` block, then closes the
channel and the transport.  `ShellDn42.cmdloop` (`shell_dn42.py`, lines
136-176) catches `OSError` and `BaseException` itself and closes the
session's `DatabaseManager` handle in its `finally` clause, so it always
returns to `connection_function` without raising, whether the loop ended by
`bye`, by end-of-stream, by a socket error or by a command exception.  The
`except` handler of `connection_function`, however, interpolates
`threading.get_ident()` into its log line — and `ssh_server_shell.py` never
imports `threading` (its imports are listed below), so the handler itself
raises `NameError`, which propagates out of `connection_function`, skipping
`channel.close()` and `session.close()`. -/

/-- The names `ssh_server_shell.py` imports (lines 1-4). -/
def sshServerShellImportedNames : List String := ["logging", "os", "paramiko", "SSHServerBase"]

/-- How the shell's command loop ended; `ShellDn42.cmdloop` handles every one
of these internally. -/
inductive LoopExit where
  | quit      -- `bye` returned True and stopped the loop
  | eof       -- zero-length read: `prompt_line` returns '', dispatched as EOF
  | ioError   -- OSError from the channel, caught at line 168
  | exn       -- any other exception, caught by the BaseException handler
deriving Repr, DecidableEq

/-- Resources held by one connection after `connection_function` returns (or
unwinds): whether the channel and the transport were closed, whether the
shell's store handle was closed, and whether an exception escaped into the
connection thread. -/
structure ConnOutcome where
  channelClosed : Bool
  transportClosed : Bool
  dbClosed : Bool
  raisedToCaller : Bool
deriving Repr, DecidableEq

/-- `ShellDn42.cmdloop` returns normally on every exit and its `finally`
clause closes the store handle. -/
def cmdloopOutcome (e : LoopExit) : Bool × Bool :=
  match e with
  | .quit => (true, true)
  | .eof => (true, true)
  | .ioError => (true, true)
  | .exn => (true, true)

/-- `SSHServerShell.connection_function`: when the shell construction raises,
the `except` handler looks up the name `threading`, which is not among the
module's imports, so the handler raises `NameError` and the two `close()`
calls are skipped; otherwise `cmdloop` runs, returns normally, and channel
and transport are closed. -/
def connection_function (shellConstructionRaises : Bool) (e : LoopExit) : ConnOutcome :=
  if shellConstructionRaises then
    if "threading" ∈ sshServerShellImportedNames then
      { channelClosed := true, transportClosed := true, dbClosed := false,
        raisedToCaller := false }
    else
      { channelClosed := false, transportClosed := false, dbClosed := false,
        raisedToCaller := true }
  else
    { channelClosed := true, transportClosed := true, dbClosed := (cmdloopOutcome e).2,
      raisedToCaller := false }

/-- C5 at its failing input: when the shell construction raises, the broken
`except` handler (unimported `threading` → `NameError`) lets the exception
escape and neither the channel nor the transport is released — the claim
holds on the quit, end-of-stream, socket-error and command-exception paths,
but not on the construction-failure path. -/
theorem connection_function_leaks_on_construction_failure :
    (connection_function true .exn).channelClosed = false ∧
    (connection_function true .exn).transportClosed = false ∧
    (connection_function true .exn).raisedToCaller = true ∧
    connection_function false .quit = ⟨true, true, true, false⟩ ∧
    connection_function false .eof = ⟨true, true, true, false⟩ ∧
    connection_function false .ioError = ⟨true, true, true, false⟩ ∧
    connection_function false .exn = ⟨true, true, true, false⟩ :=
  ⟨rfl, rfl, rfl, rfl, rfl, rfl, rfl⟩
